import Mathlib

/-!
A shallow embedding of the wink `Projection` plugin (src/js/projection.js).

The plugin keeps an ordered list of layers (DOM sections with integer depth
values), a per-instance map from a section id to a position in the layers
array, and an animation state: a current depth `_currPos`, a step size
`speed`, and a pending-timer flag (`_timeout` being non-null).

Modelling conventions:
* JS numbers appearing here are integers (depths, speeds, indices); they are
  modelled as `Int` (array indices produced by the code are also JS numbers,
  hence `Int` values in the id map).
* `this._timeout` is observable only through null-ness, so it is a `Bool`
  (`timeoutPending`).
* A DOM section is pre-resolved into a `Sect`: its `id` attribute and the
  depth value its class name yields under `_getDepthFromClass` (`none` when
  the class name has no depth class, which makes the JS code throw).
* JS object property assignment on `this._map` is an overwriting update; it
  is modelled by an association list where the newest binding is consed in
  front and lookup takes the first match.
* `Array.prototype.sort` with comparator `a.depth - b.depth` is a stable
  ascending sort; it is modelled by `List.insertionSort` on `≤` over depths.
* Callbacks are observable through emitted events; whether a callback is
  registered (`wink.isCallback`) is a `Bool` per callback slot.
-/

/-- Whitespace test used by the `wink.trim` model. -/
def isWhiteChar (c : Char) : Bool :=
  c == ' ' || c == '\t' || c == '\n' || c == '\r'

/-- Characters of a string after stripping leading and trailing whitespace
(model of `wink.trim`). -/
def trimChars (l : List Char) : List Char :=
  ((l.dropWhile isWhiteChar).reverse.dropWhile isWhiteChar).reverse

/-- Length of the trimmed string, as tested by `wink.trim(s).length`. -/
def trimmedLength (s : String) : Nat :=
  (trimChars s.data).length

/-- The per-instance `this._map` object: association list, newest binding
first (JS property assignment overwrites). -/
abbrev SMap : Type := List (String × Int)

/-- Property assignment `this._map[k] = v`. -/
def mapSet (m : SMap) (k : String) (v : Int) : SMap :=
  (k, v) :: m

/-- Property read `this._map[k]` (`none` models `undefined`). -/
def mapGet (m : SMap) (k : String) : Option Int :=
  (List.find? (fun e => e.1 == k) m).map (fun e => e.2)

/-- A DOM element as far as `_initMap` looks at it: it may be absent from a
configured layer, and its `id` attribute may be absent. -/
structure Elem where
  id : Option String
deriving DecidableEq

/-- A child entry of a layer (`{ element, depth }`); only the depth matters
to the embedded behaviour. -/
structure ChildItem where
  depth : Int
deriving DecidableEq

/-- A layer entry of `this.layers`: configured ones come from the
`properties.layers` option, discovered ones are built by
`_addLayerItemFromDom` (those always carry an element with an id). -/
structure Layer where
  element : Option Elem
  depth : Int
  children : List ChildItem
deriving DecidableEq

/-- The element id carried by a layer, when any. -/
def layerId (l : Layer) : Option String :=
  l.element.bind Elem.id

/-- A `<section>` below the target as `_parseDOM` sees it: its id attribute,
the depth its own class name yields under `_getDepthFromClass` (`none` when
no class matches the depth prefix), and the same datum for each child. -/
structure Sect where
  id : Option String
  classDepth : Option Int
  childClassDepths : List (Option Int)
deriving DecidableEq

/-- The construction properties after `wink.mixin` applied the defaults.
`speedIsInt` models the `wink.isInteger(this.speed)` test (false for a
non-integer speed value). -/
structure Config where
  target : Option String
  speedIsInt : Bool
  speed : Int
  layers_prefix_class : String
  layers : List Layer
  cbStart : Bool
  cbSliding : Bool
  cbEnd : Bool
deriving DecidableEq

/-- Lifecycle notifications observable through the callback slots. -/
inductive Ev where
  | startSliding
  | sliding
  | endSliding
deriving DecidableEq

/-- The widget state after a successful construction. -/
structure Projection where
  layers : List Layer
  map : SMap
  used : Int
  currPos : Option Int
  startPos : Option Int
  endPos : Option Int
  timeoutPending : Bool
  speed : Int
  cbStart : Bool
  cbSliding : Bool
  cbEnd : Bool
deriving DecidableEq

/-- Result of one invocation of `_moveTo(depth)` on the animation numbers:
the value of `this._currPos` afterwards, whether the animation finished
(`_stopMove` ran rather than a new timeout being set), and the depth at
which `_translateElements` was called during the invocation. -/
structure StepResult where
  curr : Int
  finished : Bool
  translatedAt : Int
deriving DecidableEq

/-- One invocation of `_moveTo(depth)` with `this.speed = speed` and
`this._currPos = curr`, projected onto the animation numbers.

Source (src/js/projection.js, `_moveTo`): when
`(currPos + speed) > depth && (currPos - speed) < depth` it translates the
elements at `depth`, clears the timeout and (if registered) calls the
`endSliding` callback — it never assigns `this._currPos`; otherwise it moves
`this._currPos` by `speed` toward `depth`, translates at the new position
and schedules the next step. -/
def moveToStep (speed curr depth : Int) : StepResult :=
  if curr + speed > depth ∧ curr - speed < depth then
    { curr := curr, finished := true, translatedAt := depth }
  else
    let c := if curr > depth then curr - speed else curr + speed
    { curr := c, finished := false, translatedAt := c }

/-- The `_currPos` trajectory function: one `_moveTo(depth)` invocation as a
map on the current position. -/
def stepIter (speed depth : Int) (curr : Int) : Int :=
  (moveToStep speed curr depth).curr

/-- Array read `this.layers[i]` for a JS number index. -/
def getLayer (ls : List Layer) (i : Int) : Option Layer :=
  if i < 0 then none else ls[i.toNat]?

/-- Source `getNextPannel` (source spelling): `min(used + 1, layers.length - 1)`. -/
def getNextPannel (p : Projection) : Int :=
  let next := p.used + 1
  let mx := (p.layers.length : Int) - 1
  if next > mx then mx else next

/-- Source `getPreviousPanel`: `max(used - 1, 0)`. -/
def getPreviousPanel (p : Projection) : Int :=
  let prev := p.used - 1
  if prev < 0 then 0 else prev

/-- One `_moveTo(depth)` invocation at the widget level: updates the state
and reports the events emitted. `this._currPos` takes part in arithmetic as
a JS value, where `null` coerces to `0`. -/
def projMoveTo (p : Projection) (depth : Int) : Projection × List Ev :=
  let r := moveToStep p.speed (p.currPos.getD 0) depth
  if r.finished then
    ({ p with timeoutPending := false },
      if p.cbEnd then [Ev.endSliding] else [])
  else
    ({ p with currPos := some r.curr, timeoutPending := true },
      if p.cbSliding then [Ev.sliding] else [])

/-- Source `move_forward`: returns unchanged when a timeout is pending; otherwise
records start and end positions, emits `startSliding` when registered, moves
`this._used` to the next panel and runs the first `_moveTo` step.  `none`
models the TypeError a JS array access out of range would raise. -/
def move_forward (p : Projection) : Option (Projection × List Ev) :=
  if p.timeoutPending then some (p, []) else
  match getLayer p.layers p.used with
  | none => none
  | some lay =>
    let p1 := { p with startPos := some lay.depth }
    let next := getNextPannel p1
    match getLayer p1.layers next with
    | none => none
    | some nlay =>
      let p2 := { p1 with endPos := some nlay.depth }
      let evs := if p2.cbStart then [Ev.startSliding] else []
      let p3 := { p2 with used := next }
      let r := projMoveTo p3 nlay.depth
      some (r.1, evs ++ r.2)

/-- Source `move_backward`: returns unchanged when a timeout is pending; otherwise
records start and end positions, emits `endSliding` when registered (the
source calls `this._callbacks.endSliding` here, at the start of the move),
moves `this._used` to the previous panel and runs the first `_moveTo`
step. -/
def move_backward (p : Projection) : Option (Projection × List Ev) :=
  if p.timeoutPending then some (p, []) else
  match getLayer p.layers p.used with
  | none => none
  | some lay =>
    let p1 := { p with startPos := some lay.depth }
    let prev := getPreviousPanel p1
    match getLayer p1.layers prev with
    | none => none
    | some play =>
      let p2 := { p1 with endPos := some play.depth }
      let evs := if p2.cbEnd then [Ev.endSliding] else []
      let p3 := { p2 with used := prev }
      let r := projMoveTo p3 play.depth
      some (r.1, evs ++ r.2)

/-- Source `_validateProperties`: target id set, speed a positive integer, depth
class prefix non-blank. -/
def validateProperties (c : Config) : Bool :=
  c.target.isSome && (c.speedIsInt && decide (0 < c.speed))
    && decide (trimmedLength c.layers_prefix_class ≠ 0)

/-- The loop body of `_initMap` over `this.layers`, carrying the running
index: throws when a layer has no element or the element has no (non-blank)
id, otherwise records `this._map[elem.id] = i`. -/
def initMapAux : List Layer → Nat → SMap → Except String SMap
  | [], _, m => .ok m
  | l :: ls, i, m =>
    match l.element with
    | none => .error "An HTML element does not exist in the layers tab"
    | some e =>
      match e.id with
      | none => .error "Please define an id for each section tag used as layer"
      | some s =>
        if trimmedLength s = 0 then
          .error "Please define an id for each section tag used as layer"
        else
          initMapAux ls (i + 1) (mapSet m s (i : Int))

/-- Source `_initMap` starting from the empty `this._map`. -/
def initMap (ls : List Layer) : Except String SMap :=
  initMapAux ls 0 []

/-- Mutable state threaded through `_parseDOM`. -/
structure PState where
  layers : List Layer
  map : SMap
  currPos : Option Int
deriving DecidableEq

/-- The lookup `this.layers[this._map[section.id]]`. -/
def lookupLayer (ls : List Layer) (m : SMap) (sid : String) : Option Layer :=
  match mapGet m sid with
  | none => none
  | some i => getLayer ls i

/-- Source `_addLayerItemFromDom`: throws when the section class name yields no
depth; otherwise builds the layer (children inherit the parent depth when
their own class yields none), pushes it, and stores the value returned by
`push` — the new array length, i.e. the index of the new layer plus one —
into `this._map`. -/
def addLayerItemFromDom (st : PState) (s : Sect) (sid : String) :
    Except String (PState × Layer) :=
  match s.classDepth with
  | none => .error "The section has no class with the depth prefix"
  | some d =>
    let ch := s.childClassDepths.map (fun cd => ({ depth := cd.getD d } : ChildItem))
    let lay : Layer := { element := some { id := some sid }, depth := d, children := ch }
    let newLayers := st.layers ++ [lay]
    let key : Int := (newLayers.length : Int)
    .ok ({ st with layers := newLayers, map := mapSet st.map sid key }, lay)

/-- The update `if (currPos == null || currPos > depth) currPos = depth`. -/
def updMin (cp : Option Int) (d : Int) : Option Int :=
  match cp with
  | none => some d
  | some c => if c > d then some d else some c

/-- The body of the `_parseDOM` loop for one section; every throw inside is
caught by the surrounding try/catch, which logs and skips the section. -/
def parseStep (st : PState) (s : Sect) : PState :=
  match s.id with
  | none => st
  | some sid =>
    if trimmedLength sid = 0 then st
    else
      match lookupLayer st.layers st.map sid with
      | some lay => { st with currPos := updMin st.currPos lay.depth }
      | none =>
        match addLayerItemFromDom st s sid with
        | .error _ => st
        | .ok (st2, lay) => { st2 with currPos := updMin st2.currPos lay.depth }

/-- Source `_sortLayers`: stable ascending sort of `this.layers` by depth. -/
def sortLayers (ls : List Layer) : List Layer :=
  ls.insertionSort (fun a b => a.depth ≤ b.depth)

/-- Source `_parseDOM` over the list of sections found below the target, followed
by `_sortLayers`. -/
def parseDOM (st : PState) (sections : List Sect) : PState :=
  let st1 := sections.foldl parseStep st
  { st1 with layers := sortLayers st1.layers }

/-- How construction ended: validation failure (constructor returned
`false`), an uncaught Error thrown out of the constructor, or a widget. -/
inductive BuildOutcome where
  | invalid
  | thrown (msg : String)
  | ok (w : Projection)
deriving DecidableEq

/-- Construction outcome plus which initialization side effects ran:
`stylesApplied` for `_initDOM`, `listenersAttached` for `_initListeners`,
`parsed` for `_parseDOM`, `loggedError` for the validation catch block. -/
structure BuildResult where
  outcome : BuildOutcome
  stylesApplied : Bool
  listenersAttached : Bool
  parsed : Bool
  loggedError : Bool
deriving DecidableEq

/-- The constructor body after `wink.mixin`: validate (returning an inert
failure when invalid), then `_initProperties`, `_initDOM`, `_initMap` (whose
Error propagates uncaught), `_initListeners`, `_parseDOM`, and the initial
`_translateElements`. -/
def construct (c : Config) (sections : List Sect) : BuildResult :=
  if validateProperties c then
    match initMap c.layers with
    | .error msg =>
      { outcome := .thrown msg, stylesApplied := true,
        listenersAttached := false, parsed := false, loggedError := false }
    | .ok m0 =>
      let st := parseDOM { layers := c.layers, map := m0, currPos := none } sections
      { outcome := .ok
          { layers := st.layers, map := st.map, used := 0,
            currPos := st.currPos, startPos := none, endPos := none,
            timeoutPending := false, speed := c.speed,
            cbStart := c.cbStart, cbSliding := c.cbSliding, cbEnd := c.cbEnd },
        stylesApplied := true, listenersAttached := true,
        parsed := true, loggedError := false }
  else
    { outcome := .invalid, stylesApplied := false,
      listenersAttached := false, parsed := false, loggedError := true }

/-- The widget of a successful construction, when any. -/
def outcomeWidget : BuildOutcome → Option Projection
  | .ok w => some w
  | _ => none

/-- The value of `_currPos` after one `_moveTo` invocation, written as a plain
conditional. -/
lemma stepIter_eq (s d c : Int) :
    stepIter s d c =
      if c + s > d ∧ c - s < d then c else if c > d then c - s else c + s := by
  unfold stepIter moveToStep
  split
  · rfl
  · split <;> rfl

/-- The step function signals convergence exactly when the strict window
test of the source holds. -/
lemma moveToStep_finished_iff (s c d : Int) :
    (moveToStep s c d).finished = true ↔ (c + s > d ∧ c - s < d) := by
  unfold moveToStep
  split
  · next h => simp [h]
  · next h => simp [h]

/-- Any `_moveTo` chain reaches a converging invocation: auxiliary strong
induction on the distance to the target. -/
lemma moveTo_terminates_aux (speed depth : Int) (hs : 0 < speed) :
    ∀ k : Nat, ∀ curr : Int, (curr - depth).natAbs ≤ k →
      ∃ n : Nat,
        (moveToStep speed ((stepIter speed depth)^[n] curr) depth).finished = true := by
  intro k
  induction k with
  | zero =>
    intro curr h
    refine ⟨0, ?_⟩
    simp only [Function.iterate_zero_apply]
    rw [moveToStep_finished_iff]
    omega
  | succ k ih =>
    intro curr h
    by_cases hc : curr + speed > depth ∧ curr - speed < depth
    · refine ⟨0, ?_⟩
      simp only [Function.iterate_zero_apply]
      rw [moveToStep_finished_iff]
      exact hc
    · have hdec : ((stepIter speed depth curr) - depth).natAbs ≤ k := by
        rw [stepIter_eq, if_neg hc]
        split <;> omega
      obtain ⟨n, hn⟩ := ih (stepIter speed depth curr) hdec
      exact ⟨n + 1, by rwa [Function.iterate_succ_apply]⟩

/-- C1. The claim states that whenever the step function runs with
`|currentDepth - targetDepth| ≤ stepSize` it sets `currentDepth` equal to
`targetDepth`, applies the transforms and finishes.  The code does not: at
`currPos = 95`, `depth = 100`, `speed = 10` the converging branch runs
(transforms are applied at the target and the pending step is cleared) but
`this._currPos` is never assigned, so it stays `95 ≠ 100`. -/
theorem c1_counterexample :
    ((95 : Int) - 100).natAbs ≤ 10
    ∧ (moveToStep 10 95 100).finished = true
    ∧ (moveToStep 10 95 100).translatedAt = 100
    ∧ (moveToStep 10 95 100).curr ≠ 100 := by
  decide

/-- C1 (amended). When the step function runs with
`|currentDepth - targetDepth|` strictly less than `stepSize`, it applies the
transforms at the target depth and finishes (clears the pending step), but
leaves `currentDepth` unchanged rather than assigning the target; when the
distance equals `stepSize` exactly, the step instead moves `currentDepth`
exactly onto the target and schedules one more step. -/
theorem c1_moveTo_near_target (speed curr depth : Int) (hs : 0 < speed) :
    ((curr - depth).natAbs < speed.natAbs →
      moveToStep speed curr depth =
        { curr := curr, finished := true, translatedAt := depth })
    ∧ ((curr - depth).natAbs = speed.natAbs →
      moveToStep speed curr depth =
        { curr := depth, finished := false, translatedAt := depth }) := by
  constructor
  · intro h
    have hc : curr + speed > depth ∧ curr - speed < depth := by omega
    simp only [moveToStep, if_pos hc]
  · intro h
    have hc : ¬(curr + speed > depth ∧ curr - speed < depth) := by omega
    simp only [moveToStep, if_neg hc, StepResult.mk.injEq]
    refine ⟨?_, trivial, ?_⟩ <;> (split <;> omega)

/-- C1 witness: the amended statement evaluated at `speed = 10`,
`currPos = 95`, `depth = 100`. -/
theorem c1_witness :
    (0 : Int) < 10
    ∧ moveToStep 10 95 100 = { curr := 95, finished := true, translatedAt := 100 } :=
  ⟨by decide, (c1_moveTo_near_target 10 95 100 (by decide)).1 (by decide)⟩

/-- C2. Starting from `currPos = 0` with `speed = 10` and target `100`, the
trajectory of repeated `_moveTo` invocations is `0, 10, ..., 100`; the
position changes on an invocation exactly for the first ten invocations, and
it never exceeds `100`. -/
theorem c2_zero_to_hundred :
    ((List.range 11).map (fun k => (stepIter 10 100)^[k] 0)
        = [0, 10, 20, 30, 40, 50, 60, 70, 80, 90, 100])
    ∧ (∀ n : Nat, ((stepIter 10 100)^[n + 1] 0 ≠ (stepIter 10 100)^[n] 0) ↔ n < 10)
    ∧ (∀ n : Nat, (stepIter 10 100)^[n] 0 ≤ 100) := by
  have key : ∀ n : Nat, (stepIter 10 100)^[n] 0 =
      if n ≤ 10 then 10 * (n : Int) else 100 := by
    intro n
    induction n with
    | zero => simp
    | succ n ih =>
      rw [Function.iterate_succ_apply', ih, stepIter_eq]
      by_cases h : n ≤ 10
      · rw [if_pos h]
        by_cases h10 : n = 10
        · subst h10
          decide
        · rw [if_pos (by omega : n + 1 ≤ 10)]
          split
          · omega
          · split <;> omega
      · rw [if_neg h, if_neg (by omega : ¬(n + 1 ≤ 10))]
        split
        · rfl
        · split <;> omega
  refine ⟨by decide, fun n => ?_, fun n => ?_⟩
  · rw [key, key]
    split <;> split <;> omega
  · rw [key]
    split <;> omega

/-- C3. For every starting position, target and positive step size: a
non-final `_moveTo` invocation (one where the convergence test fails) moves
`currentDepth` by exactly the step size, strictly toward the target and
without passing it, so the distance to the target strictly decreases; and
the self-rescheduling chain always terminates — some iterate of the step
reaches a converging invocation. -/
theorem c3_step_toward_and_terminates (speed curr depth : Int) (hs : 0 < speed) :
    (¬(curr + speed > depth ∧ curr - speed < depth) →
      (stepIter speed depth curr - curr).natAbs = speed.natAbs
      ∧ (curr < depth → curr < stepIter speed depth curr
          ∧ stepIter speed depth curr ≤ depth)
      ∧ (depth < curr → depth ≤ stepIter speed depth curr
          ∧ stepIter speed depth curr < curr)
      ∧ (stepIter speed depth curr - depth).natAbs
          = (curr - depth).natAbs - speed.natAbs
      ∧ (stepIter speed depth curr - depth).natAbs < (curr - depth).natAbs)
    ∧ ∃ n : Nat,
        (moveToStep speed ((stepIter speed depth)^[n] curr) depth).finished = true := by
  constructor
  · intro hnf
    simp only [stepIter_eq, if_neg hnf]
    refine ⟨?_, ?_, ?_, ?_, ?_⟩ <;> (split <;> omega)
  · exact moveTo_terminates_aux speed depth hs ((curr - depth).natAbs) curr le_rfl

/-- C3 witness: the statement evaluated at `speed = 10`, `curr = 0`,
`depth = 100`; in particular the chain from `0` terminates. -/
theorem c3_witness :
    (0 : Int) < 10
    ∧ ∃ n : Nat, (moveToStep 10 ((stepIter 10 100)^[n] 0) 100).finished = true :=
  ⟨by decide, (c3_step_toward_and_terminates 10 0 100 (by decide)).2⟩

/-- C4. While a timeout is pending, `move_forward` and `move_backward`
return immediately: the widget state is returned unchanged and no lifecycle
callback fires. -/
theorem c4_moving_guard (p : Projection) (h : p.timeoutPending = true) :
    move_forward p = some (p, []) ∧ move_backward p = some (p, []) := by
  constructor
  · simp only [move_forward, h, if_true]
  · simp only [move_backward, h, if_true]

/-- A widget with an animation step pending. -/
def busyWidget : Projection :=
  { layers := [{ element := some { id := some "a" }, depth := 0, children := [] }],
    map := [("a", 0)], used := 0, currPos := some 0, startPos := none,
    endPos := none, timeoutPending := true, speed := 10,
    cbStart := true, cbSliding := true, cbEnd := true }

/-- C4 witness: the guard evaluated on `busyWidget`. -/
theorem c4_witness :
    busyWidget.timeoutPending = true
    ∧ move_forward busyWidget = some (busyWidget, [])
    ∧ move_backward busyWidget = some (busyWidget, []) :=
  ⟨rfl, (c4_moving_guard busyWidget rfl).1, (c4_moving_guard busyWidget rfl).2⟩

/-- A two-panel widget resting on the deeper panel, with an `endSliding`
callback registered and no animation pending. -/
def backWidget : Projection :=
  { layers := [{ element := some { id := some "a" }, depth := 0, children := [] },
               { element := some { id := some "b" }, depth := 50, children := [] }],
    map := [("a", 0), ("b", 1)], used := 1, currPos := some 50,
    startPos := none, endPos := none, timeoutPending := false, speed := 10,
    cbStart := true, cbSliding := false, cbEnd := true }

/-- C5. The claim states the end-of-move notification fires only when the
step function detects convergence, never at the start of a move.  The code
disagrees: `move_backward` invokes the `endSliding` callback before the
first animation step.  On `backWidget` the call emits `endSliding`
immediately while the move is still in progress (a timeout is pending in
the resulting state, the animation has not converged). -/
theorem c5_endSliding_at_backward_start :
    (move_backward backWidget).map (fun r => (r.2, r.1.timeoutPending))
      = some ([Ev.endSliding], true) := by
  decide

/-- A layer array slot is populated whenever the index is in range. -/
lemma getLayer_isSome (ls : List Layer) (i : Int) (h0 : 0 ≤ i)
    (hl : i < (ls.length : Int)) : ∃ lay, getLayer ls i = some lay := by
  unfold getLayer
  rw [if_neg (by omega)]
  have hlt : i.toNat < ls.length := by omega
  exact ⟨_, List.getElem?_eq_getElem hlt⟩

/-- Calling `getNextPannel` at the last index stays at the last index. -/
lemma getNextPannel_last (p : Projection)
    (h : p.used = (p.layers.length : Int) - 1) : getNextPannel p = p.used := by
  dsimp only [getNextPannel]
  rw [h]
  split <;> omega

/-- Calling `getPreviousPanel` at index 0 stays at index 0. -/
lemma getPreviousPanel_zero (p : Projection) (h : p.used = 0) :
    getPreviousPanel p = p.used := by
  dsimp only [getPreviousPanel]
  rw [h]
  split <;> omega

/-- A `_moveTo` step never touches `this._used`. -/
lemma projMoveTo_used (p : Projection) (d : Int) :
    (projMoveTo p d).1.used = p.used := by
  cases hf : (moveToStep p.speed (p.currPos.getD 0) d).finished <;>
    simp [projMoveTo, hf]

/-- C8. With no animation in progress: `move_forward` at the last panel
index leaves the index unchanged, and `move_backward` at index 0 leaves the
index unchanged. -/
theorem c8_index_clamped (p : Projection) (hne : p.layers ≠ [])
    (ht : p.timeoutPending = false) :
    (p.used = (p.layers.length : Int) - 1 →
      (move_forward p).map (fun r => r.1.used) = some p.used)
    ∧ (p.used = 0 →
      (move_backward p).map (fun r => r.1.used) = some p.used) := by
  obtain ⟨ls, mp, used, cp, sp0, ep0, tp, spd, cb1, cb2, cb3⟩ := p
  simp only at ht hne ⊢
  subst ht
  have hlen : 0 < ls.length := List.length_pos.mpr hne
  constructor
  · intro hlast
    obtain ⟨lay, hl⟩ := getLayer_isSome ls used (by omega) (by omega)
    subst hlast
    simp only [move_forward, getNextPannel, Bool.false_eq_true, if_false, hl]
    rw [if_pos (by omega : (ls.length : Int) - 1 + 1 > (ls.length : Int) - 1)]
    rw [hl]
    simp [projMoveTo_used]
  · intro h0
    obtain ⟨lay, hl⟩ := getLayer_isSome ls used (by omega) (by omega)
    subst h0
    simp only [move_backward, getPreviousPanel, Bool.false_eq_true, if_false, hl]
    rw [if_pos (by omega : (0 : Int) - 1 < 0)]
    rw [show getLayer ls 0 = some lay from by simpa using hl]
    simp [projMoveTo_used]

/-- C8 witness: a one-panel widget where index 0 is simultaneously the last
index; both clamps evaluated there. -/
theorem c8_witness :
    ((move_forward
        { layers := [{ element := some { id := some "a" }, depth := 7, children := [] }],
          map := [("a", 0)], used := 0, currPos := some 7, startPos := none,
          endPos := none, timeoutPending := false, speed := 10,
          cbStart := false, cbSliding := false, cbEnd := false }).map
      (fun r => r.1.used) = some 0)
    ∧ ((move_backward
        { layers := [{ element := some { id := some "a" }, depth := 7, children := [] }],
          map := [("a", 0)], used := 0, currPos := some 7, startPos := none,
          endPos := none, timeoutPending := false, speed := 10,
          cbStart := false, cbSliding := false, cbEnd := false }).map
      (fun r => r.1.used) = some 0) :=
  ⟨(c8_index_clamped _ (by decide) rfl).1 (by decide),
   (c8_index_clamped _ (by decide) rfl).2 rfl⟩

/-- C9. A configuration with a missing target id, a non-integer or
non-positive speed, or a whitespace-only depth class prefix makes
construction log the error and return the inert failure: no styles written,
no listeners attached, no layer parsing. -/
theorem c9_invalid_config_inert (c : Config) (sections : List Sect)
    (h : c.target = none ∨ c.speedIsInt = false ∨ c.speed ≤ 0
        ∨ trimmedLength c.layers_prefix_class = 0) :
    construct c sections =
      { outcome := .invalid, stylesApplied := false, listenersAttached := false,
        parsed := false, loggedError := true } := by
  have hv : validateProperties c = false := by
    unfold validateProperties
    rcases h with h | h | h | h
    · simp [h]
    · simp [h]
    · have hns : ¬(0 < c.speed) := by omega
      simp [hns]
    · simp [h]
  unfold construct
  rw [hv]
  simp

/-- C9 witness: a config whose only flaw is a whitespace-only prefix. -/
theorem c9_witness :
    construct
      { target := some "wrapper", speedIsInt := true, speed := 10,
        layers_prefix_class := "  ", layers := [], cbStart := false,
        cbSliding := false, cbEnd := false } [] =
      { outcome := .invalid, stylesApplied := false, listenersAttached := false,
        parsed := false, loggedError := true } :=
  c9_invalid_config_inert _ [] (by decide)

/-- A layer entry on which `_initMap` throws: element absent, or element id
absent or blank. -/
def layerIdBad (l : Layer) : Bool :=
  match l.element with
  | none => true
  | some e =>
    match e.id with
    | none => true
    | some s => trimmedLength s == 0

/-- The `_initMap` loop throws as soon as some layer entry is bad. -/
lemma initMapAux_error_of_bad :
    ∀ (ls : List Layer) (i : Nat) (m : SMap), (∃ l ∈ ls, layerIdBad l = true) →
      ∃ msg, initMapAux ls i m = .error msg := by
  intro ls
  induction ls with
  | nil =>
    rintro i m ⟨l, hl, _⟩
    cases hl
  | cons a tl ih =>
    rintro i m ⟨l, hl, hbad⟩
    rcases List.mem_cons.mp hl with rfl | hl'
    · cases h1 : l.element with
      | none =>
        exact ⟨"An HTML element does not exist in the layers tab",
          by simp [initMapAux, h1]⟩
      | some e =>
        cases h2 : e.id with
        | none =>
          exact ⟨"Please define an id for each section tag used as layer",
            by simp [initMapAux, h1, h2]⟩
        | some s =>
          have hs : trimmedLength s = 0 := by
            simpa [layerIdBad, h1, h2] using hbad
          exact ⟨"Please define an id for each section tag used as layer",
            by simp [initMapAux, h1, h2, hs]⟩
    · cases h1 : a.element with
      | none =>
        exact ⟨"An HTML element does not exist in the layers tab",
          by simp [initMapAux, h1]⟩
      | some e =>
        cases h2 : e.id with
        | none =>
          exact ⟨"Please define an id for each section tag used as layer",
            by simp [initMapAux, h1, h2]⟩
        | some s =>
          by_cases hs : trimmedLength s = 0
          · exact ⟨"Please define an id for each section tag used as layer",
              by simp [initMapAux, h1, h2, hs]⟩
          · obtain ⟨msg, hmsg⟩ := ih (i + 1) (mapSet m s (i : Int)) ⟨l, hl', hbad⟩
            exact ⟨msg, by simp [initMapAux, h1, h2, hs, hmsg]⟩

/-- C10. When validation passes but some configured layer has no element or
no (non-blank) element id, the Error thrown by `_initMap` propagates out of
the constructor uncaught: it is not converted into the inert failure, the
perspective styles have already been applied by `_initDOM`, and neither
listener attachment nor layer parsing happens. -/
theorem c10_initMap_error_propagates (c : Config) (sections : List Sect)
    (hv : validateProperties c = true)
    (hbad : ∃ l ∈ c.layers, layerIdBad l = true) :
    ∃ msg, construct c sections =
      { outcome := .thrown msg, stylesApplied := true,
        listenersAttached := false, parsed := false, loggedError := false } := by
  obtain ⟨msg, hmsg⟩ := initMapAux_error_of_bad c.layers 0 [] hbad
  exact ⟨msg, by simp [construct, hv, initMap, hmsg]⟩

/-- The configured layer carrying a given section id, if any (the value the
lookup through `this._map` is intended to produce). -/
def cfgFind (cls : List Layer) (sid : String) : Option Layer :=
  cls.find? (fun l => layerId l == some sid)

/-- The layer `_addLayerItemFromDom` builds for a section whose class
yields depth `d`. -/
def mkAddedLayer (s : Sect) (sid : String) (d : Int) : Layer :=
  { element := some { id := some sid }, depth := d,
    children := s.childClassDepths.map (fun cd => ({ depth := cd.getD d } : ChildItem)) }

/-- The depth a section contributes to the running minimum in `_parseDOM`
(`none` when the section is skipped by the catch block). -/
def secDepth (cls : List Layer) (s : Sect) : Option Int :=
  match s.id with
  | none => none
  | some sid =>
    if trimmedLength sid = 0 then none
    else
      match cfgFind cls sid with
      | some l => some l.depth
      | none => s.classDepth

/-- The layers `_parseDOM` discovers from the DOM (sections with a valid id
that match no configured layer and whose class yields a depth). -/
def addedLayers (cls : List Layer) (ss : List Sect) : List Layer :=
  ss.filterMap (fun s =>
    match s.id with
    | none => none
    | some sid =>
      if trimmedLength sid = 0 then none
      else
        match cfgFind cls sid with
        | some _ => none
        | none =>
          match s.classDepth with
          | none => none
          | some d => some (mkAddedLayer s sid d))

/-- The id-map lookup invariant `_parseDOM` relies on: for every still
unprocessed section id, `this._map` resolves exactly to the configured
layer with that id, and has no entry when no configured layer matches. -/
def LookupInv (cls : List Layer) (st : PState) (rest : List Sect) : Prop :=
  ∀ s ∈ rest, ∀ sid : String, s.id = some sid →
    match cfgFind cls sid with
    | some l => ∃ i : Nat, mapGet st.map sid = some (i : Int) ∧ st.layers[i]? = some l
    | none => mapGet st.map sid = none

/-- Reading back a key just written. -/
lemma mapGet_set_self (m : SMap) (k : String) (v : Int) :
    mapGet (mapSet m k v) k = some v := by
  simp [mapGet, mapSet]

/-- Writing one key leaves the others unchanged. -/
lemma mapGet_set_ne (m : SMap) (k k' : String) (v : Int) (h : k' ≠ k) :
    mapGet (mapSet m k v) k' = mapGet m k' := by
  unfold mapGet mapSet
  rw [List.find?_cons_of_neg]
  simpa using fun heq => absurd heq.symm h

/-- A found configured layer is one of the configured layers. -/
lemma cfgFind_mem {cls : List Layer} {sid : String} {l : Layer}
    (h : cfgFind cls sid = some l) : l ∈ cls :=
  List.mem_of_find?_eq_some h

/-- A found configured layer carries the looked-up id. -/
lemma cfgFind_id {cls : List Layer} {sid : String} {l : Layer}
    (h : cfgFind cls sid = some l) : layerId l = some sid := by
  have := List.find?_some h
  simpa using this

/-- With pairwise distinct configured ids, the member with a given id is
what `cfgFind` returns. -/
lemma cfgFind_of_mem {cls : List Layer} {sid : String} {l : Layer}
    (hnd : cls.Pairwise (fun l1 l2 => layerId l1 ≠ layerId l2))
    (hl : l ∈ cls) (hid : layerId l = some sid) : cfgFind cls sid = some l := by
  induction cls with
  | nil => cases hl
  | cons a tl ih =>
    rcases List.pairwise_cons.mp hnd with ⟨hha, htl⟩
    rcases List.mem_cons.mp hl with rfl | hl'
    · exact List.find?_cons_of_pos _ (by simp [hid])
    · have hne : layerId a ≠ some sid := by
        rw [← hid]
        exact hha l hl'
      unfold cfgFind
      rw [List.find?_cons_of_neg _ (by simpa using hne)]
      exact ih htl hl'

/-- If no configured layer carries the id, `cfgFind` yields none. -/
lemma cfgFind_eq_none {cls : List Layer} {sid : String}
    (h : ∀ l ∈ cls, layerId l ≠ some sid) : cfgFind cls sid = none := by
  induction cls with
  | nil => rfl
  | cons a tl ih =>
    unfold cfgFind
    rw [List.find?_cons_of_neg _ (by simpa using h a (List.mem_cons_self a tl))]
    exact ih (fun l hl => h l (List.mem_cons_of_mem a hl))

/-- The `_initMap` loop succeeds when every configured layer has an element with a
non-blank id. -/
lemma initMapAux_ok :
    ∀ (ls : List Layer) (i : Nat) (m : SMap),
      (∀ l ∈ ls, layerIdBad l = false) → ∃ m', initMapAux ls i m = .ok m' := by
  intro ls
  induction ls with
  | nil => exact fun i m _ => ⟨m, rfl⟩
  | cons a tl ih =>
    intro i m hids
    have ha := hids a (List.mem_cons_self a tl)
    cases h1 : a.element with
    | none => simp [layerIdBad, h1] at ha
    | some e =>
      cases h2 : e.id with
      | none => simp [layerIdBad, h1, h2] at ha
      | some s =>
        have hs : trimmedLength s ≠ 0 := by
          simpa [layerIdBad, h1, h2] using ha
        obtain ⟨m', hm'⟩ :=
          ih (i + 1) (mapSet m s (i : Int)) (fun l hl => hids l (List.mem_cons_of_mem a hl))
        exact ⟨m', by simp [initMapAux, h1, h2, hs, hm']⟩

/-- What `_initMap` stores: with pairwise distinct configured ids, looking
up a configured id yields the position of that layer (offset by the start
index), and looking up any other id falls through to the initial map. -/
lemma initMapAux_lookup :
    ∀ (ls : List Layer) (i0 : Nat) (m m' : SMap),
      initMapAux ls i0 m = .ok m' →
      (∀ l ∈ ls, layerIdBad l = false) →
      ls.Pairwise (fun l1 l2 => layerId l1 ≠ layerId l2) →
      ∀ sid : String,
        match cfgFind ls sid with
        | some l => ∃ j : Nat, ls[j]? = some l ∧ mapGet m' sid = some ((i0 + j : Nat) : Int)
        | none => mapGet m' sid = mapGet m sid := by
  intro ls
  induction ls with
  | nil =>
    intro i0 m m' hok _ _ sid
    cases hok
    simp [cfgFind]
  | cons a tl ih =>
    intro i0 m m' hok hids hnd sid
    have ha := hids a (List.mem_cons_self a tl)
    cases h1 : a.element with
    | none => simp [layerIdBad, h1] at ha
    | some e =>
      cases h2 : e.id with
      | none => simp [layerIdBad, h1, h2] at ha
      | some s =>
        have hs : trimmedLength s ≠ 0 := by
          simpa [layerIdBad, h1, h2] using ha
        have hok' : initMapAux tl (i0 + 1) (mapSet m s (i0 : Int)) = .ok m' := by
          simpa [initMapAux, h1, h2, hs] using hok
        have haid : layerId a = some s := by simp [layerId, h1, h2]
        rcases List.pairwise_cons.mp hnd with ⟨hha, htl⟩
        have ihtl := ih (i0 + 1) (mapSet m s (i0 : Int)) m' hok'
          (fun l hl => hids l (List.mem_cons_of_mem a hl)) htl
        by_cases hsid : s = sid
        · subst hsid
          have hfind : cfgFind (a :: tl) s = some a :=
            List.find?_cons_of_pos _ (by simp [haid])
          rw [hfind]
          have htlnone : cfgFind tl s = none := by
            apply cfgFind_eq_none
            intro l hl heq
            exact hha l hl (by rw [haid, heq])
          have := ihtl s
          rw [htlnone] at this
          refine ⟨0, by simp, ?_⟩
          rw [this, mapGet_set_self]
          simp
        · have hfind : cfgFind (a :: tl) sid = cfgFind tl sid := by
            unfold cfgFind
            rw [List.find?_cons_of_neg _ (by simp [haid, hsid])]
          rw [hfind]
          have := ihtl sid
          cases hf : cfgFind tl sid with
          | some l =>
            rw [hf] at this
            obtain ⟨j, hj, hget⟩ := this
            refine ⟨j + 1, by simpa using hj, ?_⟩
            rw [hget]
            congr 2
            omega
          | none =>
            rw [hf] at this
            rw [this, mapGet_set_ne m s sid (i0 : Int) (fun h => hsid h.symm)]

/-- How one `_parseDOM` iteration transforms the state, given that the map
resolves the section id the way `_initMap` left it: the layer list grows by
exactly the discovered layers of this section, the running minimum absorbs
the section depth, and map entries for other ids are untouched. -/
lemma parseStep_spec (cls : List Layer) (st : PState) (s : Sect)
    (hJ : ∀ sid : String, s.id = some sid →
      match cfgFind cls sid with
      | some l => ∃ i : Nat, mapGet st.map sid = some (i : Int) ∧ st.layers[i]? = some l
      | none => mapGet st.map sid = none) :
    (parseStep st s).layers = st.layers ++ addedLayers cls [s]
    ∧ (parseStep st s).currPos =
        (match secDepth cls s with
         | none => st.currPos
         | some d => updMin st.currPos d)
    ∧ ∀ sid' : String, s.id ≠ some sid' →
        mapGet (parseStep st s).map sid' = mapGet st.map sid' := by
  cases hid : s.id with
  | none =>
    refine ⟨?_, ?_, ?_⟩ <;> simp [parseStep, addedLayers, secDepth, hid]
  | some sid =>
    by_cases hblank : trimmedLength sid = 0
    · refine ⟨?_, ?_, ?_⟩ <;> simp [parseStep, addedLayers, secDepth, hid, hblank]
    · have hJ' := hJ sid hid
      cases hcf : cfgFind cls sid with
      | some l =>
        rw [hcf] at hJ'
        obtain ⟨i, hmi, hli⟩ := hJ'
        have hlk : lookupLayer st.layers st.map sid = some l := by
          simp only [lookupLayer, getLayer, hmi]
          rw [if_neg (by omega : ¬((i : Int) < 0))]
          simpa using hli
        refine ⟨?_, ?_, ?_⟩ <;>
          simp [parseStep, addedLayers, secDepth, hid, hblank, hcf, hlk]
      | none =>
        rw [hcf] at hJ'
        have hlk : lookupLayer st.layers st.map sid = none := by
          unfold lookupLayer
          rw [hJ']
        cases hcd : s.classDepth with
        | none =>
          refine ⟨?_, ?_, ?_⟩ <;>
            simp [parseStep, addedLayers, secDepth, addLayerItemFromDom,
              hid, hblank, hcf, hlk, hcd]
        | some d =>
          refine ⟨?_, ?_, ?_⟩
          · simp [parseStep, addedLayers, secDepth, addLayerItemFromDom,
              hid, hblank, hcf, hlk, hcd, mkAddedLayer]
          · simp [parseStep, secDepth, addLayerItemFromDom, hid, hblank, hcf, hlk, hcd]
          · intro sid' hne
            have hne' : sid' ≠ sid := by
              intro h
              subst h
              exact hne rfl
            simp [parseStep, addLayerItemFromDom, hid, hblank, hlk, hcd,
              mapGet_set_ne _ _ _ _ hne']

/-- Processing a section with an id distinct from all remaining sections
preserves the lookup invariant for those sections. -/
lemma parseStep_preserves (cls : List Layer) (st : PState) (s : Sect) (rest : List Sect)
    (hJ : LookupInv cls st (s :: rest))
    (hdiff : ∀ s' ∈ rest, s.id ≠ s'.id) :
    LookupInv cls (parseStep st s) rest := by
  have hspec := parseStep_spec cls st s
    (fun sid hsid => hJ s (List.mem_cons_self s rest) sid hsid)
  intro s' hs' sid hsid
  have hJ' := hJ s' (List.mem_cons_of_mem s hs') sid hsid
  have hne : s.id ≠ some sid := by
    intro h
    exact hdiff s' hs' (by rw [h, hsid])
  have hmapeq := hspec.2.2 sid hne
  cases hcf : cfgFind cls sid with
  | some l =>
    rw [hcf] at hJ'
    obtain ⟨i, hmi, hli⟩ := hJ'
    show ∃ i : Nat,
      mapGet (parseStep st s).map sid = some (i : Int)
      ∧ (parseStep st s).layers[i]? = some l
    refine ⟨i, by rw [hmapeq, hmi], ?_⟩
    rw [hspec.1]
    have hlt : i < st.layers.length := (List.getElem?_eq_some.mp hli).1
    rw [List.getElem?_append_left hlt]
    exact hli
  | none =>
    rw [hcf] at hJ'
    show mapGet (parseStep st s).map sid = none
    rw [hmapeq, hJ']

/-- The whole `_parseDOM` loop, before sorting: the final layer list is the
configured layers followed by the discovered ones, and the final current
position is the running minimum of the contributed depths. -/
lemma parse_fold (cls : List Layer) :
    ∀ (ss : List Sect) (st : PState),
      LookupInv cls st ss →
      ss.Pairwise (fun s1 s2 => s1.id ≠ s2.id) →
      (ss.foldl parseStep st).layers = st.layers ++ addedLayers cls ss
      ∧ (ss.foldl parseStep st).currPos =
          ss.foldl (fun cp s =>
            match secDepth cls s with
            | none => cp
            | some d => updMin cp d) st.currPos := by
  intro ss
  induction ss with
  | nil =>
    intro st _ _
    exact ⟨by simp [addedLayers], rfl⟩
  | cons s ss ih =>
    intro st hJ hnd
    rcases List.pairwise_cons.mp hnd with ⟨hdiff, hnd'⟩
    have hspec := parseStep_spec cls st s
      (fun sid hsid => hJ s (List.mem_cons_self s ss) sid hsid)
    have hJ' := parseStep_preserves cls st s ss hJ hdiff
    obtain ⟨hL, hC⟩ := ih (parseStep st s) hJ' hnd'
    constructor
    · rw [List.foldl_cons, hL, hspec.1, List.append_assoc]
      congr 1
      unfold addedLayers
      rw [← List.filterMap_append]
      rfl
    · rw [List.foldl_cons, hC, hspec.2.1, List.foldl_cons]

/-- The running-minimum fold skips exactly the skipped sections. -/
lemma foldl_min_filterMap (cls : List Layer) :
    ∀ (ss : List Sect) (cp : Option Int),
      ss.foldl (fun cp s =>
        match secDepth cls s with
        | none => cp
        | some d => updMin cp d) cp
      = (ss.filterMap (secDepth cls)).foldl updMin cp := by
  intro ss
  induction ss with
  | nil => intro cp; rfl
  | cons s ss ih =>
    intro cp
    rw [List.foldl_cons]
    cases h : secDepth cls s with
    | none => rw [List.filterMap_cons_none h, ih]
    | some d => rw [List.filterMap_cons_some h, List.foldl_cons, ih]

/-- The update `updMin` always yields a value. -/
lemma updMin_isSome (cp : Option Int) (d : Int) : ∃ x, updMin cp d = some x := by
  cases cp with
  | none => exact ⟨d, rfl⟩
  | some c =>
    simp only [updMin]
    split
    · exact ⟨d, rfl⟩
    · exact ⟨c, rfl⟩

/-- Folding `updMin` over a non-empty list yields a value. -/
lemma foldl_updMin_isSome :
    ∀ (ds : List Int) (cp : Option Int), ds ≠ [] ∨ (∃ c, cp = some c) →
      ∃ x, ds.foldl updMin cp = some x := by
  intro ds
  induction ds with
  | nil =>
    rintro cp (h | ⟨c, hc⟩)
    · exact absurd rfl h
    · exact ⟨c, hc⟩
  | cons d ds ih =>
    intro cp _
    rw [List.foldl_cons]
    exact ih (updMin cp d) (Or.inr (updMin_isSome cp d))

/-- The value of an `updMin` fold is the minimum of the initial value and
the list entries: it comes from one of them and bounds all of them. -/
lemma foldl_updMin_spec :
    ∀ (ds : List Int) (cp : Option Int) (x : Int),
      ds.foldl updMin cp = some x →
      (cp = some x ∨ x ∈ ds) ∧ (∀ d ∈ ds, x ≤ d) ∧ (∀ c0, cp = some c0 → x ≤ c0) := by
  intro ds
  induction ds with
  | nil =>
    intro cp x h
    refine ⟨Or.inl h, by simp, fun c0 hc => ?_⟩
    rw [hc] at h
    injection h with h
    omega
  | cons d ds ih =>
    intro cp x h
    rw [List.foldl_cons] at h
    obtain ⟨hmem, hle, hinit⟩ := ih (updMin cp d) x h
    refine ⟨?_, ?_, ?_⟩
    · rcases hmem with hm | hm
      · cases cp with
        | none =>
          injection hm with hm
          exact Or.inr (by simp [hm])
        | some c =>
          simp only [updMin] at hm
          by_cases hcd : c > d
          · rw [if_pos hcd] at hm
            injection hm with hm
            exact Or.inr (by simp [hm])
          · rw [if_neg hcd] at hm
            exact Or.inl hm
      · exact Or.inr (List.mem_cons_of_mem _ hm)
    · intro d' hd'
      rcases List.mem_cons.mp hd' with rfl | hd'
      · cases cp with
        | none => exact hinit d' rfl
        | some c =>
          by_cases hcd : c > d'
          · exact hinit d' (by simp [updMin, hcd])
          · have hx := hinit c (by simp [updMin, hcd])
            omega
      · exact hle d' hd'
    · intro c0 hc0
      subst hc0
      by_cases hcd : c0 > d
      · have := hinit d (by simp [updMin, hcd])
        omega
      · exact hinit c0 (by simp [updMin, hcd])

/-- A layer accepted by `_initMap` carries a non-blank id. -/
lemma layerId_of_not_bad (l : Layer) (h : layerIdBad l = false) :
    ∃ sid, layerId l = some sid ∧ trimmedLength sid ≠ 0 := by
  cases h1 : l.element with
  | none => simp [layerIdBad, h1] at h
  | some e =>
    cases h2 : e.id with
    | none => simp [layerIdBad, h1, h2] at h
    | some s =>
      refine ⟨s, by simp [layerId, h1, h2], ?_⟩
      simpa [layerIdBad, h1, h2] using h

/-- Every depth contributed to the running minimum belongs to some layer of
the final (unsorted) layer list. -/
lemma mem_ds_layer (cls : List Layer) (ss : List Sect) (d : Int)
    (h : d ∈ ss.filterMap (secDepth cls)) :
    ∃ l, l ∈ cls ++ addedLayers cls ss ∧ l.depth = d := by
  obtain ⟨s, hs, hsd⟩ := List.mem_filterMap.mp h
  cases hid : s.id with
  | none => simp [secDepth, hid] at hsd
  | some sid =>
    by_cases hnb : trimmedLength sid = 0
    · simp [secDepth, hid, hnb] at hsd
    · cases hcf : cfgFind cls sid with
      | some l =>
        have hld : l.depth = d := by simpa [secDepth, hid, hnb, hcf] using hsd
        exact ⟨l, List.mem_append_left _ (cfgFind_mem hcf), hld⟩
      | none =>
        cases hcd : s.classDepth with
        | none => simp [secDepth, hid, hnb, hcf, hcd] at hsd
        | some d0 =>
          have hd0 : d0 = d := by simpa [secDepth, hid, hnb, hcf, hcd] using hsd
          refine ⟨mkAddedLayer s sid d0, ?_, by simp [mkAddedLayer, hd0]⟩
          refine List.mem_append_right _ ?_
          exact List.mem_filterMap.mpr ⟨s, hs, by simp [hid, hnb, hcf, hcd]⟩

/-- The depth of every configured layer is contributed to the running
minimum, provided some scanned section carries its id. -/
lemma cfg_depth_mem_ds {cls : List Layer} {ss : List Sect} {l : Layer}
    (hnd : cls.Pairwise (fun l1 l2 => layerId l1 ≠ layerId l2))
    (hl : l ∈ cls) (hbadf : layerIdBad l = false)
    (hs : ∃ s ∈ ss, s.id = layerId l) :
    l.depth ∈ ss.filterMap (secDepth cls) := by
  obtain ⟨sid, hlid, hnb⟩ := layerId_of_not_bad l hbadf
  obtain ⟨s, hsmem, hsid⟩ := hs
  refine List.mem_filterMap.mpr ⟨s, hsmem, ?_⟩
  have hsid' : s.id = some sid := by rw [hsid, hlid]
  have hfind := cfgFind_of_mem hnd hl hlid
  simp [secDepth, hsid', hnb, hfind]

/-- The depth of every discovered layer is contributed to the running
minimum. -/
lemma added_depth_mem_ds {cls : List Layer} {ss : List Sect} {l : Layer}
    (hl : l ∈ addedLayers cls ss) :
    l.depth ∈ ss.filterMap (secDepth cls) := by
  obtain ⟨s, hs, heq⟩ := List.mem_filterMap.mp hl
  refine List.mem_filterMap.mpr ⟨s, hs, ?_⟩
  cases hid : s.id with
  | none => simp [hid] at heq
  | some sid =>
    by_cases hnb : trimmedLength sid = 0
    · simp [hid, hnb] at heq
    · cases hcf : cfgFind cls sid with
      | some l' => simp [hid, hnb, hcf] at heq
      | none =>
        cases hcd : s.classDepth with
        | none => simp [hid, hnb, hcf, hcd] at heq
        | some d =>
          have hml : mkAddedLayer s sid d = l := by
            simpa [hid, hnb, hcf, hcd] using heq
          rw [← hml]
          simp [secDepth, hid, hnb, hcf, hcd, mkAddedLayer]

instance : IsTotal Layer (fun l1 l2 => l1.depth ≤ l2.depth) :=
  ⟨fun l1 l2 => Int.le_total l1.depth l2.depth⟩

instance : IsTrans Layer (fun l1 l2 => l1.depth ≤ l2.depth) :=
  ⟨fun _ _ _ h1 h2 => le_trans h1 h2⟩

/-- Sorting via `_sortLayers` leaves the layer list pairwise ascending by depth. -/
lemma sortLayers_sorted (ls : List Layer) :
    List.Pairwise (fun l1 l2 => l1.depth ≤ l2.depth) (sortLayers ls) :=
  List.sorted_insertionSort _ ls

/-- Sorting via `_sortLayers` permutes the layer list. -/
lemma sortLayers_perm (ls : List Layer) : (sortLayers ls).Perm ls :=
  List.perm_insertionSort _ ls

/-- C6. For every valid configuration (target set, positive integer speed,
non-blank prefix, every configured layer with a non-blank unique element id
that some scanned section carries, every scanned section with a non-blank
unique id that resolves to a configured layer or to a class depth, and at
least one section): construction succeeds, the resulting layers are sorted
ascending by depth, and `currentDepth` equals the minimum depth among all
layers. -/
theorem c6_construction_sorted_min (c : Config) (sections : List Sect)
    (hv : validateProperties c = true)
    (hids : ∀ l ∈ c.layers, layerIdBad l = false)
    (hcfgnd : c.layers.Pairwise (fun l1 l2 => layerId l1 ≠ layerId l2))
    (hsecnd : sections.Pairwise (fun s1 s2 => s1.id ≠ s2.id))
    (hsec : ∀ s ∈ sections, s.id ≠ none
        ∧ trimmedLength (s.id.getD "") ≠ 0
        ∧ (cfgFind c.layers (s.id.getD "") ≠ none ∨ s.classDepth ≠ none))
    (hcov : ∀ l ∈ c.layers, ∃ s ∈ sections, s.id = layerId l)
    (hne : sections ≠ []) :
    ∃ w, (construct c sections).outcome = .ok w
      ∧ List.Pairwise (fun l1 l2 => l1.depth ≤ l2.depth) w.layers
      ∧ ∃ d, w.currPos = some d
          ∧ d ∈ w.layers.map Layer.depth
          ∧ ∀ l ∈ w.layers, d ≤ l.depth := by
  obtain ⟨m0, hm0⟩ := initMapAux_ok c.layers 0 [] hids
  have hlookup := initMapAux_lookup c.layers 0 [] m0 hm0 hids hcfgnd
  have hJ : LookupInv c.layers ⟨c.layers, m0, none⟩ sections := by
    intro s hs sid hsid
    have hl := hlookup sid
    cases hcf : cfgFind c.layers sid with
    | some l =>
      rw [hcf] at hl
      obtain ⟨j, hj, hg⟩ := hl
      exact ⟨j, by simpa using hg, hj⟩
    | none =>
      rw [hcf] at hl
      show mapGet m0 sid = none
      rw [hl]
      rfl
  obtain ⟨hL, hC⟩ := parse_fold c.layers sections ⟨c.layers, m0, none⟩ hJ hsecnd
  have hall : ∀ s ∈ sections, ∃ d0, secDepth c.layers s = some d0 := by
    intro s hs
    obtain ⟨hnn, hnb, hres⟩ := hsec s hs
    cases hid : s.id with
    | none => exact absurd hid hnn
    | some sid =>
      rw [hid] at hnb hres
      simp only [Option.getD_some] at hnb hres
      cases hcf : cfgFind c.layers sid with
      | some l => exact ⟨l.depth, by simp [secDepth, hid, hnb, hcf]⟩
      | none =>
        rcases hres with h | h
        · exact absurd hcf h
        · cases hcd : s.classDepth with
          | none => exact absurd hcd h
          | some dd => exact ⟨dd, by simp [secDepth, hid, hnb, hcf, hcd]⟩
  obtain ⟨s0, hs0⟩ := List.exists_mem_of_ne_nil sections hne
  obtain ⟨d0, hd0⟩ := hall s0 hs0
  have hdsne : sections.filterMap (secDepth c.layers) ≠ [] :=
    List.ne_nil_of_mem (List.mem_filterMap.mpr ⟨s0, hs0, hd0⟩)
  have hcur : (sections.foldl parseStep ⟨c.layers, m0, none⟩).currPos
      = (sections.filterMap (secDepth c.layers)).foldl updMin none := by
    rw [hC]
    exact foldl_min_filterMap c.layers sections none
  obtain ⟨x, hx⟩ :=
    foldl_updMin_isSome (sections.filterMap (secDepth c.layers)) none (Or.inl hdsne)
  obtain ⟨hmem, hle, _⟩ := foldl_updMin_spec _ none x hx
  have hxmem : x ∈ sections.filterMap (secDepth c.layers) := by
    rcases hmem with h | h
    · simp at h
    · exact h
  have hcons : construct c sections =
      { outcome := .ok
          { layers := sortLayers (sections.foldl parseStep ⟨c.layers, m0, none⟩).layers,
            map := (sections.foldl parseStep ⟨c.layers, m0, none⟩).map,
            used := 0,
            currPos := (sections.foldl parseStep ⟨c.layers, m0, none⟩).currPos,
            startPos := none, endPos := none, timeoutPending := false,
            speed := c.speed, cbStart := c.cbStart,
            cbSliding := c.cbSliding, cbEnd := c.cbEnd },
        stylesApplied := true, listenersAttached := true,
        parsed := true, loggedError := false } := by
    simp [construct, hv, initMap, hm0, parseDOM]
  rw [hcons]
  refine ⟨_, rfl, sortLayers_sorted _, x, ?_, ?_, ?_⟩
  · show (sections.foldl parseStep ⟨c.layers, m0, none⟩).currPos = some x
    rw [hcur]
    exact hx
  · obtain ⟨l, hlmem, hldep⟩ := mem_ds_layer c.layers sections x hxmem
    have hl2 : l ∈ (sections.foldl parseStep ⟨c.layers, m0, none⟩).layers := by
      rw [hL]
      exact hlmem
    have hl3 : l ∈ sortLayers (sections.foldl parseStep ⟨c.layers, m0, none⟩).layers :=
      ((sortLayers_perm _).mem_iff).mpr hl2
    exact List.mem_map.mpr ⟨l, hl3, hldep⟩
  · intro l hl
    have hl2 : l ∈ (sections.foldl parseStep ⟨c.layers, m0, none⟩).layers :=
      ((sortLayers_perm _).mem_iff).mp hl
    rw [hL] at hl2
    rcases List.mem_append.mp hl2 with hcfg | hadd
    · exact hle _ (cfg_depth_mem_ds hcfgnd hcfg (hids l hcfg) (hcov l hcfg))
    · exact hle _ (added_depth_mem_ds hadd)

/-- A configuration whose layers arrive in descending depth order. -/
def cfgEx : Config :=
  { target := some "wrapper", speedIsInt := true, speed := 10,
    layers_prefix_class := "depth",
    layers := [{ element := some { id := some "b" }, depth := 50, children := [] },
               { element := some { id := some "a" }, depth := 0, children := [] }],
    cbStart := false, cbSliding := false, cbEnd := false }

/-- Sections for the two configured layers plus one discovered only from
its class depth. -/
def secsEx : List Sect :=
  [{ id := some "b", classDepth := some 50, childClassDepths := [] },
   { id := some "a", classDepth := some 0, childClassDepths := [] },
   { id := some "c", classDepth := some 25, childClassDepths := [] }]

/-- C6 witness: the statement evaluated on `cfgEx` and `secsEx`. -/
theorem c6_witness :
    ∃ w, (construct cfgEx secsEx).outcome = .ok w
      ∧ List.Pairwise (fun l1 l2 => l1.depth ≤ l2.depth) w.layers
      ∧ ∃ d, w.currPos = some d
          ∧ d ∈ w.layers.map Layer.depth
          ∧ ∀ l ∈ w.layers, d ≤ l.depth :=
  c6_construction_sorted_min cfgEx secsEx (by decide) (by decide) (by decide)
    (by decide) (by decide) (by decide) (by decide)

/-- C7. The claim states that after construction `this._map` sends every
layer element id to the index of that layer in the (sorted) layers array.
The code violates it twice: `_sortLayers` reorders the array without
re-indexing the map, and `_addLayerItemFromDom` stores the value returned
by `push` — the new length, one past the layer's index.  On `cfgEx` and
`secsEx` the final layers are `[a, c, b]`, yet `map["b"] = 0` (layer `b`'s
pre-sort position, now holding `a`) and `map["c"] = 3` (one past `c`'s
pre-sort position, out of range), so `layers[map[id]]` is the wrong layer
for `b` and no layer at all for `c`. -/
theorem c7_map_index_mismatch :
    ((outcomeWidget (construct cfgEx secsEx).outcome).map
      (fun w => (w.layers.map layerId, mapGet w.map "b",
                 (lookupLayer w.layers w.map "b").map layerId,
                 mapGet w.map "c",
                 (lookupLayer w.layers w.map "c").map layerId)))
      = some ([some "a", some "c", some "b"], some 0, some (some "a"),
              some 3, none) := by
  rfl

/-- C10 witness: a valid config whose single layer entry lacks an element. -/
theorem c10_witness :
    ∃ msg, construct
      { target := some "wrapper", speedIsInt := true, speed := 10,
        layers_prefix_class := "depth",
        layers := [{ element := none, depth := 3, children := [] }],
        cbStart := false, cbSliding := false, cbEnd := false } [] =
      { outcome := .thrown msg, stylesApplied := true,
        listenersAttached := false, parsed := false, loggedError := false } :=
  c10_initMap_error_propagates _ [] (by decide) (by decide)
